import Mathlib

/-!
Verification of `mediapipe/tasks/cc/text/utils/vocab_convert_utils.cc`
(`ConvertHfTokenizer` and its helpers) against its specification.

The C++ core converts a Hugging-Face-style tokenizer (two parsed JSON
documents) into a sentencepiece `ModelProto`.  The shallow embedding below
mirrors the source:

* pure helpers (`GetUTF8Map`, the two normalizer-spec builders) become
  Lean functions;
* document access is modelled at schema level: `tokenizer_config.json`
  gives `TokenizerConfig`, `tokenizer.json` gives `HFTokenizer`, with
  `Option` for fields the code accesses dynamically
  (nlohmann `operator[]` on an absent key yields a null value whose
  `size()` is 0 and whose `items()` range is empty, so an absent field is
  modelled as `none` and read back with `Option.getD`);
* fallible steps become explicit outcome constructors.  The code can fail
  in three distinct ways that the embedding keeps apart:
  - `errStatus`: an `absl::Status` error is returned to the caller;
  - `thrown`: a C++ exception escapes (nlohmann `json::parse` without the
    `allow_exceptions = false` argument, `json::at` on a missing key);
  - `undef`: undefined behaviour (`normal_vocabs[id]` with `id` out of
    bounds of the `std::vector`), exposed through an `Option`-returning
    embedding of the placement loop.
* `set_score` receives a C++ arithmetic expression; the embedding records
  the exact integer value of that expression.  In the added-token loop the
  source computes `-(normal_vocabs.size() + i)`: `size()` is `size_t`, so
  the sum is `size_t` and unary minus wraps modulo `2^64`.  The embedding
  keeps that wraparound explicit (`addedScore`).  The subsequent
  `size_t -> float` conversion is not modelled; it only rounds the huge
  positive value and cannot turn it back into a small negative number.
-/

set_option maxRecDepth 4000

/-- Piece types used by the conversion (subset of
`sentencepiece::ModelProto::SentencePiece::Type`). -/
inductive PieceType where
  | NORMAL
  | UNKNOWN
  | USER_DEFINED
deriving DecidableEq, Inhabited

/-- One sentencepiece vocabulary piece as filled in by the conversion:
`set_piece`, `set_type`, `set_score`.  The score field records the exact
integer value of the C++ expression passed to `set_score`. -/
structure Piece where
  piece : String
  type : PieceType
  score : Int
deriving DecidableEq, Inhabited

/-- Membership test of the `good_chars` set built at the top of
`GetUTF8Map`: `[33,126] ∪ [161,172] ∪ [174,255]`. -/
def goodChar (i : Nat) : Bool :=
  (33 ≤ i && i ≤ 126) || (161 ≤ i && i ≤ 172) || (174 ≤ i && i ≤ 255)

/-- `GetUTF8Map`: for `i = 1..255` in ascending order, push `(i, 256 + n)`
for every `i` not in `good_chars`, where `n` starts at 1 and is
incremented after each push. -/
def GetUTF8Map : List (Nat × Nat) :=
  ((List.range' 1 255).foldl
    (fun (acc : List (Nat × Nat) × Nat) i =>
      if goodChar i then acc else (acc.1 ++ [(i, 256 + acc.2)], acc.2 + 1))
    ([], 1)).1

/-- Normalizer spec as configured by the code.  The external
`Builder::CompileCharsMap` primitive is out of scope; the spec carries the
chars map it is compiled from (each key and value in the source is the
single-codepoint sequence `{c}`, modelled as the codepoint itself). -/
structure NormalizerSpec where
  charsMap : List (Nat × Nat)
  add_dummy_space : Bool
  remove_extra_whitespaces : Bool
  escape_whitespaces : Bool
deriving DecidableEq, Inhabited

/-- `ConfigureNormalizerSpecs`: forward map `{c} -> {mapped_c}` for every
entry of `GetUTF8Map`; the three normalization flags are set to false. -/
def ConfigureNormalizerSpecs : NormalizerSpec :=
  { charsMap := GetUTF8Map
    add_dummy_space := false
    remove_extra_whitespaces := false
    escape_whitespaces := false }

/-- `ConfigureDenormalizerSpecs`: identical but with key and value
swapped (`{mapped_c} -> {c}`). -/
def ConfigureDenormalizerSpecs : NormalizerSpec :=
  { charsMap := GetUTF8Map.map Prod.swap
    add_dummy_space := false
    remove_extra_whitespaces := false
    escape_whitespaces := false }

/-- Schema of `tokenizer_config.json` as the code reads it: only
`unk_token` is accessed (`configs.first.at("unk_token")`), `none` models
an absent key. -/
structure TokenizerConfig where
  unk_token : Option String
deriving DecidableEq, Inhabited

/-- One record of the `added_tokens` array: the code reads its
`"content"` and `"normalized"` fields. -/
structure AddedToken where
  content : String
  normalized : Bool
deriving DecidableEq, Inhabited

/-- Schema of `tokenizer.json` as the code reads it: `model.vocab` is a
token → index object (`none` models an absent key, which nlohmann
`operator[]` silently turns into a null of size 0), `added_tokens`
likewise. -/
structure HFTokenizer where
  model_vocab : Option (List (String × Nat))
  added_tokens : Option (List AddedToken)
deriving DecidableEq, Inhabited

/-- State of one input file as seen by `LoadHFTokenizerConfigs`:
unreadable (`file::GetContents` fails), readable but not well-formed
JSON, or readable and parsed into its schema. -/
inductive FileState (α : Type) where
  | unreadable
  | malformed
  | parsed (doc : α)
deriving DecidableEq, Inhabited

/-- Outcome of `LoadHFTokenizerConfigs`. -/
inductive LoadResult where
  | ok (cfg : TokenizerConfig) (tok : HFTokenizer)
  | errStatus (msg : String)
  | thrown (msg : String)
deriving DecidableEq, Inhabited

/-- `LoadHFTokenizerConfigs`: reads `tokenizer_config.json` first;
parse failures of the config file are detected with the non-throwing
`json::parse(contents, nullptr, false)` and returned as a status, while
`tokenizer.json` is parsed with the throwing `json::parse(contents)`, so
a malformed `tokenizer.json` raises a `nlohmann::json::parse_error`
exception and the following `is_discarded()` check is dead code. -/
def LoadHFTokenizerConfigs :
    FileState TokenizerConfig → FileState HFTokenizer → LoadResult
  | .unreadable, _ => .errStatus "GetContents tokenizer_config.json failed"
  | .malformed, _ => .errStatus "Failed to parse tokenizer_config.json"
  | .parsed _, .unreadable => .errStatus "GetContents tokenizer.json failed"
  | .parsed _, .malformed => .thrown "nlohmann json parse_error"
  | .parsed cfg, .parsed tok => .ok cfg tok

/-- The placement loop `normal_vocabs[id] = vocab;` over
`model.vocab.items()`, as a total `Option`-returning function: the source
performs no bounds check, so an index outside the vector is undefined
behaviour, modelled by the `none` branch. -/
def setVocab? (arr : List String) : List (String × Nat) → Option (List String)
  | [] => some arr
  | (t, id) :: rest =>
      if id < arr.length then setVocab? (arr.set id t) rest else none

/-- `std::vector<std::string> normal_vocabs(vocab.size())` followed by the
placement loop. -/
def buildNormalVocabs? (l : List (String × Nat)) : Option (List String) :=
  setVocab? (List.replicate l.length "") l

/-- The vocabulary emission loop, carrying the running index `i`:
type is UNKNOWN when `unk_token == vocab`, else NORMAL; score is `-i`
(`i` is a C++ `int`; vocabularies within `int` range are assumed). -/
def vocabPiecesFrom (unk : String) (i : Nat) : List String → List Piece
  | [] => []
  | v :: rest =>
      { piece := v
        type := if unk = v then PieceType.UNKNOWN else PieceType.NORMAL
        score := -(i : Int) } :: vocabPiecesFrom unk (i + 1) rest

/-- The vocabulary emission loop started at `i = 0`. -/
def vocabPieces (unk : String) (arr : List String) : List Piece :=
  vocabPiecesFrom unk 0 arr

/-- Exact integer value of the C++ expression
`-(normal_vocabs.size() + i)`: the sum is computed in `size_t`
(64-bit) and unary minus on an unsigned type wraps modulo `2^64`. -/
def addedScore (n i : Nat) : Int :=
  (((2 ^ 64 - (n + i) % 2 ^ 64) % 2 ^ 64 : Nat) : Int)

/-- The added-token emission loop, carrying the running index `i`
(which advances on every record, also on skipped ones): records with
`normalized == false` are skipped; kept records become USER_DEFINED
pieces scored with `addedScore`. -/
def addedPiecesFrom (n : Nat) (i : Nat) : List AddedToken → List Piece
  | [] => []
  | a :: rest =>
      if a.normalized then
        { piece := a.content
          type := PieceType.USER_DEFINED
          score := addedScore n i } :: addedPiecesFrom n (i + 1) rest
      else
        addedPiecesFrom n (i + 1) rest

/-- The added-token emission loop started at `i = 0`; `n` is
`normal_vocabs.size()`. -/
def addedPieces (n : Nat) (added : List AddedToken) : List Piece :=
  addedPiecesFrom n 0 added

/-- Trainer model family (subset of `sentencepiece::TrainerSpec`). -/
inductive ModelType where
  | BPE
  | UNIGRAM
deriving DecidableEq, Inhabited

/-- The fields of the sentencepiece `ModelProto` that the conversion
fills in. -/
structure ModelProto where
  normalizer_spec : NormalizerSpec
  denormalizer_spec : NormalizerSpec
  pieces : List Piece
  trainer_model_type : ModelType
  trainer_vocab_size : Nat
deriving DecidableEq, Inhabited

/-- Outcome of `ConvertHfTokenizer`.  `done m` means the model was fully
assembled, serialized and written to the output path; every other
constructor means the call failed before the write, so no output file is
produced (`errStatus`: error status returned; `thrown`: C++ exception
escapes; `undef`: undefined behaviour in the placement loop).  Directory
creation and the file write itself are external I/O, not modelled. -/
inductive Outcome where
  | done (m : ModelProto)
  | errStatus (msg : String)
  | thrown (msg : String)
  | undef
deriving DecidableEq, Inhabited

/-- `ConvertHfTokenizer`, in source order: load the two documents,
configure both normalizer specs, size and fill `normal_vocabs`, read
`unk_token` (`at` throws on a missing key), emit vocabulary pieces then
added-token pieces, set trainer metadata (`BPE`, `pieces_size()`). -/
def ConvertHfTokenizer
    (cfgFile : FileState TokenizerConfig) (tokFile : FileState HFTokenizer) :
    Outcome :=
  match LoadHFTokenizerConfigs cfgFile tokFile with
  | .errStatus msg => .errStatus msg
  | .thrown msg => .thrown msg
  | .ok cfg tok =>
    match buildNormalVocabs? (tok.model_vocab.getD []) with
    | none => .undef
    | some arr =>
      match cfg.unk_token with
      | none => .thrown "key unk_token not found"
      | some unk =>
        let pieces :=
          vocabPieces unk arr ++ addedPieces arr.length (tok.added_tokens.getD [])
        .done
          { normalizer_spec := ConfigureNormalizerSpecs
            denormalizer_spec := ConfigureDenormalizerSpecs
            pieces := pieces
            trainer_model_type := ModelType.BPE
            trainer_vocab_size := pieces.length }

/-- Projection used to state evaluation theorems: the model carried by a
successful outcome. -/
def doneModel : Outcome → ModelProto
  | .done m => m
  | _ => default

/-! ## Helper lemmas about the placement loop -/

theorem setVocab_length :
    ∀ (l : List (String × Nat)) (arr arr' : List String),
      setVocab? arr l = some arr' → arr'.length = arr.length := by
  intro l
  induction l with
  | nil =>
      intro arr arr' h
      simp [setVocab?] at h
      simp [h]
  | cons p rest ih =>
      intro arr arr' h
      obtain ⟨t, id⟩ := p
      simp only [setVocab?] at h
      by_cases hid : id < arr.length
      · rw [if_pos hid] at h
        have := ih (arr.set id t) arr' h
        simpa using this
      · rw [if_neg hid] at h
        exact absurd h (by simp)

theorem setVocab_isSome :
    ∀ (l : List (String × Nat)) (arr : List String),
      (∀ p ∈ l, p.2 < arr.length) → (setVocab? arr l).isSome := by
  intro l
  induction l with
  | nil => intro arr _; simp [setVocab?]
  | cons p rest ih =>
      intro arr hb
      obtain ⟨t, id⟩ := p
      have hid : id < arr.length := hb (t, id) (by simp)
      simp only [setVocab?, if_pos hid]
      refine ih (arr.set id t) ?_
      intro q hq
      have := hb q (by simp [hq])
      simpa using this

theorem setVocab_getElem?_not_mem :
    ∀ (l : List (String × Nat)) (arr arr' : List String),
      setVocab? arr l = some arr' →
      ∀ j, (∀ p ∈ l, p.2 ≠ j) → arr'[j]? = arr[j]? := by
  intro l
  induction l with
  | nil =>
      intro arr arr' h j _
      simp [setVocab?] at h
      simp [h]
  | cons p rest ih =>
      intro arr arr' h j hj
      obtain ⟨t, id⟩ := p
      simp only [setVocab?] at h
      by_cases hid : id < arr.length
      · rw [if_pos hid] at h
        have hrest : arr'[j]? = (arr.set id t)[j]? := by
          refine ih (arr.set id t) arr' h j ?_
          intro q hq
          exact hj q (by simp [hq])
        have hne : id ≠ j := hj (t, id) (by simp)
        rw [hrest, List.getElem?_set_ne hne]
      · rw [if_neg hid] at h
        exact absurd h (by simp)

theorem setVocab_getElem?_mem :
    ∀ (l : List (String × Nat)) (arr arr' : List String),
      (l.map Prod.snd).Nodup →
      setVocab? arr l = some arr' →
      ∀ p ∈ l, arr'[p.2]? = some p.1 := by
  intro l
  induction l with
  | nil => intro arr arr' _ _ p hp; simp at hp
  | cons q rest ih =>
      intro arr arr' hnd h p hp
      obtain ⟨t, id⟩ := q
      simp only [setVocab?] at h
      by_cases hid : id < arr.length
      · rw [if_pos hid] at h
        rcases List.mem_cons.1 hp with hhead | htail
        · have hrestne : ∀ r ∈ rest, r.2 ≠ id := by
            intro r hr
            have hnotin : id ∉ rest.map Prod.snd := by
              simp only [List.map_cons, List.nodup_cons] at hnd
              exact hnd.1
            intro hcontra
            exact hnotin (hcontra ▸ List.mem_map_of_mem Prod.snd hr)
          have hpres := setVocab_getElem?_not_mem rest (arr.set id t) arr' h id hrestne
          rw [hhead]
          rw [hpres, List.getElem?_set_eq_of_lt t hid]
        · have hnd' : (rest.map Prod.snd).Nodup := by
            simp only [List.map_cons, List.nodup_cons] at hnd
            exact hnd.2
          exact ih (arr.set id t) arr' hnd' h p htail
      · rw [if_neg hid] at h
        exact absurd h (by simp)

/-! ## Helper lemmas about the emission loops -/

theorem length_vocabPiecesFrom (unk : String) :
    ∀ (arr : List String) (i : Nat),
      (vocabPiecesFrom unk i arr).length = arr.length := by
  intro arr
  induction arr with
  | nil => intro i; simp [vocabPiecesFrom]
  | cons v rest ih => intro i; simp [vocabPiecesFrom, ih]

theorem vocabPiecesFrom_unknown_iff (unk : String) :
    ∀ (arr : List String) (i : Nat),
      (∃ p ∈ vocabPiecesFrom unk i arr, p.type = PieceType.UNKNOWN) ↔ unk ∈ arr := by
  intro arr
  induction arr with
  | nil => intro i; simp [vocabPiecesFrom]
  | cons v rest ih =>
      intro i
      simp only [vocabPiecesFrom, List.mem_cons, List.mem_singleton]
      constructor
      · rintro ⟨p, hp | hp, hU⟩
        · subst hp
          by_cases hv : unk = v
          · exact Or.inl hv
          · simp only [if_neg hv] at hU
            exact absurd hU (by simp)
        · exact Or.inr ((ih (i + 1)).1 ⟨p, hp, hU⟩)
      · rintro (hv | hv)
        · exact ⟨_, Or.inl rfl, by simp [hv]⟩
        · obtain ⟨p, hp, hU⟩ := (ih (i + 1)).2 hv
          exact ⟨p, Or.inr hp, hU⟩

theorem vocabPiecesFrom_all_normal (unk : String) :
    ∀ (arr : List String) (i : Nat), unk ∉ arr →
      ∀ p ∈ vocabPiecesFrom unk i arr, p.type = PieceType.NORMAL := by
  intro arr
  induction arr with
  | nil => intro i _ p hp; simp [vocabPiecesFrom] at hp
  | cons v rest ih =>
      intro i hmem p hp
      simp only [vocabPiecesFrom, List.mem_cons] at hp
      rcases hp with hp | hp
      · subst hp
        have hv : unk ≠ v := fun h => hmem (by simp [h])
        simp [if_neg hv]
      · exact ih (i + 1) (fun h => hmem (by simp [h])) p hp

theorem countP_vocabPiecesFrom (unk : String) :
    ∀ (arr : List String) (i : Nat),
      (vocabPiecesFrom unk i arr).countP (fun p => decide (p.type = PieceType.UNKNOWN)) =
        arr.countP (fun v => decide (unk = v)) := by
  intro arr
  induction arr with
  | nil => intro i; simp [vocabPiecesFrom]
  | cons v rest ih =>
      intro i
      simp only [vocabPiecesFrom, List.countP_cons, ih (i + 1)]
      by_cases hv : unk = v
      · simp [hv]
      · simp [hv]

theorem nodup_countP_le_one {arr : List String} (h : arr.Nodup) (a : String) :
    arr.countP (fun v => decide (a = v)) ≤ 1 := by
  induction arr with
  | nil => simp
  | cons v rest ih =>
      have hv : v ∉ rest := (List.nodup_cons.1 h).1
      have hrest : rest.Nodup := (List.nodup_cons.1 h).2
      rw [List.countP_cons]
      by_cases hav : a = v
      · have hz : rest.countP (fun v => decide (a = v)) = 0 := by
          rw [List.countP_eq_zero]
          intro x hx hax
          have hax' : a = x := of_decide_eq_true hax
          rw [← hax'] at hx
          rw [hav] at hx
          exact hv hx
        rw [hz, if_pos (by simp [hav])]
      · rw [if_neg (by simp [hav])]
        simpa using ih hrest

theorem addedPiecesFrom_user_defined (n : Nat) :
    ∀ (added : List AddedToken) (i : Nat),
      ∀ p ∈ addedPiecesFrom n i added, p.type = PieceType.USER_DEFINED := by
  intro added
  induction added with
  | nil => intro i p hp; simp [addedPiecesFrom] at hp
  | cons a rest ih =>
      intro i p hp
      simp only [addedPiecesFrom] at hp
      by_cases ha : a.normalized
      · rw [if_pos ha] at hp
        rcases List.mem_cons.1 hp with hp | hp
        · subst hp; rfl
        · exact ih (i + 1) p hp
      · rw [if_neg ha] at hp
        exact ih (i + 1) p hp

/-! ## Claim theorems -/

/-- C4: the byte remap table builder iterates raw byte values 1..255 in
ascending order, skips every value of the printable set
`[33,126] ∪ [161,172] ∪ [174,255]` (no entry exists for those, nor for
byte 0), and assigns the n-th retained byte (1-based, in encounter
order) the mapped codepoint `256 + n`, i.e. the k-th entry (0-based) of
the table is `(k-th non-printable byte of 1..255, 257 + k)`. -/
theorem byte_remap_table_characterization :
    GetUTF8Map =
      (((List.range' 1 255).filter (fun b => !goodChar b)).enum.map
        (fun p => (p.2, 257 + p.1))) ∧
    ((List.range' 33 94 ++ List.range' 161 12 ++ List.range' 174 82).all
      (fun b => (GetUTF8Map.lookup b).isNone)) = true ∧
    (GetUTF8Map.lookup 0).isNone = true ∧
    GetUTF8Map.all (fun p => decide (0 < p.1)) = true := by
  decide

/-- C3: for every raw byte `b` in `[1,255]` outside the printable set,
looking `b` up in the normalizer chars map and then looking the result up
in the denormalizer chars map yields `b` back; the mapping is injective
and its image starts at 257 (every mapped codepoint is at least 257 and
the first one is exactly 257). -/
theorem byte_remap_bijection (b : Nat) (h1 : 1 ≤ b) (h2 : b ≤ 255)
    (h3 : goodChar b = false) :
    ((ConfigureNormalizerSpecs.charsMap.lookup b).bind
      (fun c => ConfigureDenormalizerSpecs.charsMap.lookup c)) = some b ∧
    (∀ p ∈ GetUTF8Map, ∀ q ∈ GetUTF8Map, p.2 = q.2 → p.1 = q.1) ∧
    (∀ p ∈ GetUTF8Map, 257 ≤ p.2) ∧
    (GetUTF8Map.map Prod.snd).head? = some 257 := by
  refine ⟨?_, by decide, by decide, by decide⟩
  have H : ∀ b, b < 256 → 1 ≤ b → goodChar b = false →
      ((ConfigureNormalizerSpecs.charsMap.lookup b).bind
        (fun c => ConfigureDenormalizerSpecs.charsMap.lookup c)) = some b := by
    decide
  exact H b (by omega) h1 h3

/-- C3 witness: byte 1 is not printable and round-trips through the two
chars maps. -/
theorem byte_remap_bijection_witness :
    ((ConfigureNormalizerSpecs.charsMap.lookup 1).bind
      (fun c => ConfigureDenormalizerSpecs.charsMap.lookup c)) = some 1 :=
  (byte_remap_bijection 1 (by decide) (by decide) (by decide)).1

/-- C1 (failing input): for vocabulary `{"a": 0}` and one normalized
added token, the emitted scores are `[0, 2^64 - 1]`, not `[0, -1]` as the
claim requires: `-(normal_vocabs.size() + i)` is computed in `size_t`
arithmetic, so the negation wraps to a huge positive value. -/
theorem convert_added_token_score_wraps_unsigned :
    (doneModel (ConvertHfTokenizer (.parsed ⟨some "a"⟩)
        (.parsed ⟨some [("a", 0)], some [⟨"t", true⟩]⟩))).pieces.map Piece.score =
      [0, 18446744073709551615] ∧
    (18446744073709551615 : Int) ≠ -1 := by
  decide

/-- C7 (failing input, spec scenario C): the skip behaviour is as
claimed — `<cls>` (normalized = false) contributes nothing, `<pad>`
becomes a USER_DEFINED piece after the vocabulary pieces — but its score
is `2^64 - 2` (unsigned wraparound of `-(normal_vocabs.size() + i)`),
not the `-2` the claim states. -/
theorem added_token_skip_scenarioC_score_wraps :
    ConvertHfTokenizer (.parsed ⟨some "z"⟩)
        (.parsed ⟨some [("x", 0), ("y", 1)],
                  some [⟨"<pad>", true⟩, ⟨"<cls>", false⟩]⟩) =
      .done
        { normalizer_spec := ConfigureNormalizerSpecs
          denormalizer_spec := ConfigureDenormalizerSpecs
          pieces := [⟨"x", .NORMAL, 0⟩, ⟨"y", .NORMAL, -1⟩,
                     ⟨"<pad>", .USER_DEFINED, 18446744073709551614⟩]
          trainer_model_type := .BPE
          trainer_vocab_size := 3 } ∧
    (doneModel (ConvertHfTokenizer (.parsed ⟨some "z"⟩)
        (.parsed ⟨some [("x", 0), ("y", 1)],
                  some [⟨"<pad>", true⟩, ⟨"<cls>", false⟩]⟩))).pieces ≠
      [⟨"x", .NORMAL, 0⟩, ⟨"y", .NORMAL, -1⟩, ⟨"<pad>", .USER_DEFINED, -2⟩] := by
  decide

/-- C2 (counterexample): a tokenizer document without the
`model.vocab` field does not make the conversion fail: nlohmann
`operator[]` silently materializes an empty object, so the call succeeds
and writes a model with zero vocabulary pieces. -/
theorem convert_succeeds_on_absent_vocab_field :
    ConvertHfTokenizer (.parsed ⟨some "u"⟩) (.parsed ⟨none, some []⟩) =
      .done
        { normalizer_spec := ConfigureNormalizerSpecs
          denormalizer_spec := ConfigureDenormalizerSpecs
          pieces := []
          trainer_model_type := .BPE
          trainer_vocab_size := 0 } := by
  decide

/-- C6 (failing input): a readable but malformed `tokenizer.json` is
parsed with the throwing `json::parse(contents)`, so the load stage
raises a `parse_error` exception instead of returning an error result;
unreadable files do return an error status, and in either case the
conversion never reaches the output write. -/
theorem malformed_tokenizer_json_throws :
    LoadHFTokenizerConfigs (.parsed ⟨some "u"⟩) .malformed =
      .thrown "nlohmann json parse_error" ∧
    ConvertHfTokenizer (.parsed ⟨some "u"⟩) .malformed =
      .thrown "nlohmann json parse_error" ∧
    LoadHFTokenizerConfigs .unreadable (.parsed ⟨none, none⟩) =
      .errStatus "GetContents tokenizer_config.json failed" ∧
    LoadHFTokenizerConfigs (.parsed ⟨some "u"⟩) .unreadable =
      .errStatus "GetContents tokenizer.json failed" := by
  decide

/-- C9: under the precondition that every index of the vocabulary
mapping is below the number of entries, the `Option`-returning embedding
of the unchecked placement loop `normal_vocabs[id] = vocab` never takes
its out-of-bounds (`none`) branch. -/
theorem vocab_placement_in_bounds (l : List (String × Nat))
    (h : ∀ p ∈ l, p.2 < l.length) :
    (buildNormalVocabs? l).isSome := by
  unfold buildNormalVocabs?
  refine setVocab_isSome l _ ?_
  simpa using h

/-- C9 witness: the placement succeeds on the concrete in-bounds
vocabulary `{"a": 0, "b": 1}`. -/
theorem vocab_placement_in_bounds_witness :
    (buildNormalVocabs? [("a", 0), ("b", 1)]).isSome :=
  vocab_placement_in_bounds [("a", 0), ("b", 1)] (by decide)

/-- C10: a piece emitted from the added-tokens list has type
USER_DEFINED unconditionally (the emitting code never consults the
unknown-token text), and any UNKNOWN piece among the emitted pieces comes
from the vocabulary-derived segment. -/
theorem added_pieces_user_defined_only (n : Nat) (added : List AddedToken)
    (unk : String) (arr : List String) (p : Piece)
    (hp : p ∈ addedPieces n added) :
    p.type = PieceType.USER_DEFINED ∧
    ∀ q ∈ vocabPieces unk arr ++ addedPieces n added,
      q.type = PieceType.UNKNOWN → q ∈ vocabPieces unk arr := by
  constructor
  · exact addedPiecesFrom_user_defined n added 0 p hp
  · intro q hq hU
    rcases List.mem_append.1 hq with hq | hq
    · exact hq
    · have := addedPiecesFrom_user_defined n added 0 q hq
      rw [this] at hU
      exact absurd hU (by simp)

/-- C10 witness: the added token `"a"` (equal to an unknown-token text
one might configure) still yields a USER_DEFINED piece. -/
theorem added_pieces_user_defined_only_witness :
    Piece.type ⟨"a", PieceType.USER_DEFINED, 18446744073709551615⟩ =
      PieceType.USER_DEFINED :=
  (added_pieces_user_defined_only 1 [⟨"a", true⟩] "a" ["x"]
    ⟨"a", PieceType.USER_DEFINED, 18446744073709551615⟩ (by decide)).1

/-- C8: whenever the conversion completes, the trainer metadata carries
model family BPE and a vocabulary size equal to the number of emitted
pieces. -/
theorem trainer_meta_bpe_and_size (cf : FileState TokenizerConfig)
    (tf : FileState HFTokenizer) (m : ModelProto)
    (h : ConvertHfTokenizer cf tf = .done m) :
    m.trainer_model_type = ModelType.BPE ∧
    m.trainer_vocab_size = m.pieces.length := by
  cases cf with
  | unreadable => simp [ConvertHfTokenizer, LoadHFTokenizerConfigs] at h
  | malformed => simp [ConvertHfTokenizer, LoadHFTokenizerConfigs] at h
  | parsed cfg =>
    cases tf with
    | unreadable => simp [ConvertHfTokenizer, LoadHFTokenizerConfigs] at h
    | malformed => simp [ConvertHfTokenizer, LoadHFTokenizerConfigs] at h
    | parsed tok =>
      simp only [ConvertHfTokenizer, LoadHFTokenizerConfigs] at h
      rcases hB : buildNormalVocabs? (tok.model_vocab.getD []) with _ | arr <;>
        rw [hB] at h
      · simp at h
      · rcases hU : cfg.unk_token with _ | unk <;> rw [hU] at h
        · simp at h
        · simp only [Outcome.done.injEq] at h
          rw [← h]
          exact ⟨rfl, rfl⟩

/-- C8 witness: a concrete successful conversion has BPE trainer metadata
and matching vocabulary size. -/
theorem trainer_meta_bpe_and_size_witness :
    (doneModel (ConvertHfTokenizer (.parsed ⟨some "a"⟩)
        (.parsed ⟨some [("a", 0)], some []⟩))).trainer_model_type =
      ModelType.BPE ∧
    (doneModel (ConvertHfTokenizer (.parsed ⟨some "a"⟩)
        (.parsed ⟨some [("a", 0)], some []⟩))).trainer_vocab_size =
      (doneModel (ConvertHfTokenizer (.parsed ⟨some "a"⟩)
        (.parsed ⟨some [("a", 0)], some []⟩))).pieces.length :=
  trainer_meta_bpe_and_size (.parsed ⟨some "a"⟩) (.parsed ⟨some [("a", 0)], some []⟩)
    (doneModel (ConvertHfTokenizer (.parsed ⟨some "a"⟩)
      (.parsed ⟨some [("a", 0)], some []⟩))) rfl

/-- C2 (amended): a configuration document without `unk_token` makes the
conversion fail before any output is produced — but via a thrown
`out_of_range` from `json::at`, not a returned data-error status — while
an absent `model.vocab` field does not fail at all: it is treated as an
empty vocabulary and the conversion succeeds, emitting only the
added-token pieces. -/
theorem convert_missing_unk_token_fails_absent_vocab_ok :
    (∀ tok : HFTokenizer,
        (∀ p ∈ tok.model_vocab.getD [], p.2 < (tok.model_vocab.getD []).length) →
        ConvertHfTokenizer (.parsed ⟨none⟩) (.parsed tok) =
          .thrown "key unk_token not found") ∧
    (∀ (unk : String) (addedOpt : Option (List AddedToken)),
        ConvertHfTokenizer (.parsed ⟨some unk⟩) (.parsed ⟨none, addedOpt⟩) =
          .done
            { normalizer_spec := ConfigureNormalizerSpecs
              denormalizer_spec := ConfigureDenormalizerSpecs
              pieces := addedPieces 0 (addedOpt.getD [])
              trainer_model_type := ModelType.BPE
              trainer_vocab_size := (addedPieces 0 (addedOpt.getD [])).length }) := by
  constructor
  · intro tok hb
    have hs : (buildNormalVocabs? (tok.model_vocab.getD [])).isSome := by
      unfold buildNormalVocabs?
      exact setVocab_isSome _ _ (by simpa using hb)
    obtain ⟨arr, hArr⟩ := Option.isSome_iff_exists.mp hs
    simp only [ConvertHfTokenizer, LoadHFTokenizerConfigs]
    rw [hArr]
  · intro unk addedOpt
    rfl

/-- C2 amended witness: a concrete configuration without `unk_token`
makes the conversion fail with the thrown error. -/
theorem convert_missing_unk_token_fails_witness :
    ConvertHfTokenizer (.parsed ⟨none⟩) (.parsed ⟨some [("a", 0)], some []⟩) =
      .thrown "key unk_token not found" :=
  convert_missing_unk_token_fails_absent_vocab_ok.1
    ⟨some [("a", 0)], some []⟩ (by decide)

/-- C5: over a well-formed vocabulary (distinct token texts; distinct,
dense, in-bounds indices), the conversion succeeds, at most one emitted
piece has type UNKNOWN, an UNKNOWN piece is present if and only if some
vocabulary entry's text equals the configured unknown-token text, and
when no entry matches, every vocabulary-derived piece is NORMAL (and the
call still succeeds). -/
theorem unknown_piece_uniqueness
    (l : List (String × Nat)) (added : List AddedToken) (unk : String)
    (hT : (l.map Prod.fst).Nodup) (hI : (l.map Prod.snd).Nodup)
    (hB : ∀ p ∈ l, p.2 < l.length)
    (hD : ∀ j, j < l.length → ∃ p ∈ l, p.2 = j) :
    ConvertHfTokenizer (.parsed ⟨some unk⟩) (.parsed ⟨some l, some added⟩) =
      .done (doneModel (ConvertHfTokenizer (.parsed ⟨some unk⟩)
        (.parsed ⟨some l, some added⟩))) ∧
    (doneModel (ConvertHfTokenizer (.parsed ⟨some unk⟩)
        (.parsed ⟨some l, some added⟩))).pieces.countP
      (fun p => decide (p.type = PieceType.UNKNOWN)) ≤ 1 ∧
    ((∃ p ∈ (doneModel (ConvertHfTokenizer (.parsed ⟨some unk⟩)
        (.parsed ⟨some l, some added⟩))).pieces,
        p.type = PieceType.UNKNOWN) ↔ ∃ q ∈ l, q.1 = unk) ∧
    ((∀ q ∈ l, q.1 ≠ unk) →
      ∀ p ∈ (doneModel (ConvertHfTokenizer (.parsed ⟨some unk⟩)
        (.parsed ⟨some l, some added⟩))).pieces.take l.length,
        p.type = PieceType.NORMAL) := by
  have hs : (buildNormalVocabs? l).isSome := by
    unfold buildNormalVocabs?
    exact setVocab_isSome l _ (by simpa using hB)
  obtain ⟨arr, hArr⟩ := Option.isSome_iff_exists.mp hs
  have hArr' : setVocab? (List.replicate l.length "") l = some arr := hArr
  have hlen : arr.length = l.length := by
    simpa using setVocab_length l _ arr hArr'
  have hget : ∀ p ∈ l, arr[p.2]? = some p.1 :=
    setVocab_getElem?_mem l _ arr hI hArr'
  have hconv : ConvertHfTokenizer (.parsed ⟨some unk⟩)
      (.parsed ⟨some l, some added⟩) =
      .done
        { normalizer_spec := ConfigureNormalizerSpecs
          denormalizer_spec := ConfigureDenormalizerSpecs
          pieces := vocabPieces unk arr ++ addedPieces arr.length added
          trainer_model_type := ModelType.BPE
          trainer_vocab_size :=
            (vocabPieces unk arr ++ addedPieces arr.length added).length } := by
    simp only [ConvertHfTokenizer, LoadHFTokenizerConfigs, Option.getD_some]
    rw [hArr]
  have hnd : arr.Nodup := by
    rw [List.nodup_iff_injective_getElem]
    rintro ⟨i, hi⟩ ⟨j, hj⟩ hij
    simp only at hij
    obtain ⟨p, hp, hpi⟩ := hD i (by omega)
    obtain ⟨q, hq, hqj⟩ := hD j (by omega)
    have h1 : arr[i]? = some p.1 := by rw [← hpi]; exact hget p hp
    have h2 : arr[j]? = some q.1 := by rw [← hqj]; exact hget q hq
    rw [List.getElem?_eq_getElem hi] at h1
    rw [List.getElem?_eq_getElem hj] at h2
    have hpq : p.1 = q.1 := by
      have e1 : arr[i] = p.1 := Option.some.inj h1
      have e2 : arr[j] = q.1 := Option.some.inj h2
      rw [← e1, ← e2, hij]
    have hpqe : p = q := List.inj_on_of_nodup_map hT hp hq hpq
    rw [hpqe] at hpi
    apply Fin.ext
    show i = j
    omega
  have hmem_iff : unk ∈ arr ↔ ∃ q ∈ l, q.1 = unk := by
    constructor
    · intro hm
      obtain ⟨j, hj⟩ := List.mem_iff_getElem?.mp hm
      have hjlt : j < arr.length := by
        by_contra hc
        rw [List.getElem?_eq_none (by omega)] at hj
        exact absurd hj (by simp)
      obtain ⟨p, hp, hpj⟩ := hD j (by omega)
      have h1 : arr[j]? = some p.1 := by rw [← hpj]; exact hget p hp
      have h2 : some unk = some p.1 := by rw [← hj, h1]
      exact ⟨p, hp, (Option.some.inj h2).symm⟩
    · rintro ⟨q, hq, hqe⟩
      have h1 : arr[q.2]? = some q.1 := hget q hq
      rw [hqe] at h1
      exact List.mem_iff_getElem?.mpr ⟨q.2, h1⟩
  have hcount : (vocabPieces unk arr ++ addedPieces arr.length added).countP
      (fun p => decide (p.type = PieceType.UNKNOWN)) ≤ 1 := by
    rw [List.countP_append]
    have hz : (addedPieces arr.length added).countP
        (fun p => decide (p.type = PieceType.UNKNOWN)) = 0 := by
      rw [List.countP_eq_zero]
      intro p hp
      have hud := addedPiecesFrom_user_defined arr.length added 0 p hp
      simp [hud]
    rw [hz, Nat.add_zero]
    have hcv := countP_vocabPiecesFrom unk arr 0
    unfold vocabPieces
    rw [hcv]
    exact nodup_countP_le_one hnd unk
  have hiff : (∃ p ∈ vocabPieces unk arr ++ addedPieces arr.length added,
      p.type = PieceType.UNKNOWN) ↔ ∃ q ∈ l, q.1 = unk := by
    rw [← hmem_iff]
    constructor
    · rintro ⟨p, hp, hU⟩
      rcases List.mem_append.1 hp with hp | hp
      · exact (vocabPiecesFrom_unknown_iff unk arr 0).1 ⟨p, hp, hU⟩
      · have hud := addedPiecesFrom_user_defined arr.length added 0 p hp
        rw [hud] at hU
        exact absurd hU (by simp)
    · intro hm
      obtain ⟨p, hp, hU⟩ := (vocabPiecesFrom_unknown_iff unk arr 0).2 hm
      exact ⟨p, List.mem_append.2 (Or.inl hp), hU⟩
  have hnormal : (∀ q ∈ l, q.1 ≠ unk) →
      ∀ p ∈ (vocabPieces unk arr ++ addedPieces arr.length added).take l.length,
        p.type = PieceType.NORMAL := by
    intro hno p hp
    have hunm : unk ∉ arr := by
      intro hm
      obtain ⟨q, hq, hqe⟩ := hmem_iff.1 hm
      exact hno q hq hqe
    have hlenv : (vocabPieces unk arr).length = l.length := by
      unfold vocabPieces
      rw [length_vocabPiecesFrom unk arr 0, hlen]
    rw [← hlenv, List.take_left] at hp
    exact vocabPiecesFrom_all_normal unk arr 0 hunm p hp
  have hdm : doneModel (ConvertHfTokenizer (.parsed ⟨some unk⟩)
      (.parsed ⟨some l, some added⟩)) =
      { normalizer_spec := ConfigureNormalizerSpecs
        denormalizer_spec := ConfigureDenormalizerSpecs
        pieces := vocabPieces unk arr ++ addedPieces arr.length added
        trainer_model_type := ModelType.BPE
        trainer_vocab_size :=
          (vocabPieces unk arr ++ addedPieces arr.length added).length } := by
    rw [hconv]
    rfl
  refine ⟨?_, ?_, ?_, ?_⟩
  · rw [hdm]
    exact hconv
  · rw [hdm]
    exact hcount
  · rw [hdm]
    exact hiff
  · rw [hdm]
    exact hnormal

/-- C5 witness: for vocabulary `{"a": 0, "b": 1}` with unknown token
`"a"`, the emitted pieces contain at most one UNKNOWN piece. -/
theorem unknown_piece_uniqueness_witness :
    (doneModel (ConvertHfTokenizer (.parsed ⟨some "a"⟩)
        (.parsed ⟨some [("a", 0), ("b", 1)], some []⟩))).pieces.countP
      (fun p => decide (p.type = PieceType.UNKNOWN)) ≤ 1 :=
  (unknown_piece_uniqueness [("a", 0), ("b", 1)] [] "a"
    (by decide) (by decide) (by decide) (by decide)).2.1
